import Mathlib

/-!
A shallow embedding of display_watcher.py (camja014/display-watcher).

Filesystem effects are modelled by explicit inputs: a directory listing is a
list of entry names, and reading a status attribute yields an
Option String, where none models a raised OSError and some s models a
successful read whose stripped first line is s.  Python exceptions are
modelled with Except; the error payload carries the partially mutated
object state, matching Python's in-place mutation surviving an unwind.
The monotonic clock is modelled with rationals.
-/

def DRM_PATH : String := "/sys/class/drm"

/-- Membership test for the character class [0-9]. -/
def isDigitChar (c : Char) : Bool := '0' ≤ c && c ≤ '9'

/-- After "card" and one digit, the regex card[0-9]+ with a dollar anchor
accepts further digits and also a single trailing newline (which the
dollar anchor in Python's re module accepts as well). -/
def digitsThenOptionalNewline : List Char → Bool
  | [] => true
  | ['\n'] => true
  | c :: rest => isDigitChar c && digitsThenOptionalNewline rest

/-- re.match with DRM_CARD_PATTERN, the regex card[0-9]+ anchored at the
right by a dollar: the name is "card" followed by one or more digits,
optionally followed by one trailing newline. -/
def matchesCardPattern (s : String) : Bool :=
  match s.toList with
  | 'c' :: 'a' :: 'r' :: 'd' :: d :: rest => isDigitChar d && digitsThenOptionalNewline rest
  | _ => false

/-- re.match with DRM_PORT_PATTERN, the regex card[0-9]+ followed by
dot-plus, unanchored at the right.  With backtracking this is equivalent
to: the name starts with "card", its fifth character is a digit, and a
sixth character exists and is not a newline. -/
def matchesPortPattern (s : String) : Bool :=
  match s.toList with
  | 'c' :: 'a' :: 'r' :: 'd' :: d :: c :: _ => isDigitChar d && c != '\n'
  | _ => false

/-- Port.__init__: path recorded, no status ever read, no change seen. -/
structure Port where
  _path : String
  _status : Option String
  _previous_status : Option String
  _changed : Bool
  deriving DecidableEq

def Port.init (path : String) : Port :=
  { _path := path, _status := none, _previous_status := none, _changed := false }

/-- Port.connected property. -/
def Port.connected (p : Port) : Bool := p._status == some "connected"

/-- Port.path property. -/
def Port.path (p : Port) : String := p._path

/-- Port.status property: Python truthiness makes both None and the empty
string fall through to "none". -/
def Port.status (p : Port) : String :=
  match p._status with
  | some s => if s = "" then "none" else s
  | none => "none"

/-- Port.changed property. -/
def Port.changed (p : Port) : Bool := p._changed

/-- Port.update: reset the changed flag, read the status attribute
(raising on failure, after the flag reset already happened), shift the
old status into previous, store the new one and compare. -/
def Port.update (p : Port) (read : Option String) : Except Port Port :=
  let p0 : Port := { p with _changed := false }
  match read with
  | none => .error p0
  | some status_str =>
    let p1 : Port := { p0 with _previous_status := p0._status, _status := some status_str }
    .ok { p1 with _changed := p1._status != p1._previous_status }

/-- Card.__init__: a Python dict of ports is modelled as an
insertion-ordered association list with unique keys. -/
structure Card where
  _path : String
  _ports : List (String × Port)
  _changed : Bool
  deriving DecidableEq

def Card.init (path : String) : Card :=
  { _path := path, _ports := [], _changed := false }

/-- Card.path property. -/
def Card.path (c : Card) : String := c._path

/-- Card.changed property. -/
def Card.changed (c : Card) : Bool := c._changed

/-- Card._enum_ports: filter the directory listing of the card's path by
DRM_PORT_PATTERN. -/
def Card.enum_ports (items : List String) : List String :=
  items.filter matchesPortPattern

/-- Assignment into a Python dict modelled on the association list:
replace the value in place when the key is present, append otherwise. -/
def dictInsert (ps : List (String × Port)) (n : String) (p : Port) : List (String × Port) :=
  if ps.any (fun kv => kv.1 == n) then
    ps.map (fun kv => if kv.1 == n then (kv.1, p) else kv)
  else
    ps ++ [(n, p)]

/-- del of every name in rs from the dict; iteration order over the
Python set of removed names is irrelevant to the result. -/
def dictRemoveAll (ps : List (String × Port)) (rs : List String) : List (String × Port) :=
  rs.foldl (fun acc n => acc.filter (fun kv => kv.1 != n)) ps

/-- set(self._enum_ports()) of Card.update: dedup of the filtered listing. -/
def Card.new_port_names (items : List String) : List String :=
  (Card.enum_ports items).dedup

/-- set(self._ports.keys()) of Card.update. -/
def Card.current_port_names (c : Card) : List String :=
  c._ports.map Prod.fst

/-- new_port_names_set - current_port_names_set of Card.update. -/
def Card.added_ports (c : Card) (items : List String) : List String :=
  (Card.new_port_names items).filter (fun n => !(c.current_port_names).contains n)

/-- current_port_names_set - new_port_names_set of Card.update. -/
def Card.removed_ports (c : Card) (items : List String) : List String :=
  (c.current_port_names).filter (fun n => !(Card.new_port_names items).contains n)

/-- The reconciliation prefix of Card.update (lines 87 to 106): reset the
changed flag, diff the enumerated names against the known ones, insert
the added ports in the never-read initial state, delete the removed ones,
and record membership changes in the flag.  Iteration order over the
Python sets is arbitrary and fixed here to the dedup order. -/
def Card.reconcile (c : Card) (items : List String) : Card :=
  let c0 : Card := { c with _changed := false }
  let added := Card.added_ports c items
  let c1 : Card := if added.isEmpty then c0 else { c0 with _changed := true }
  let c2 : Card :=
    { c1 with _ports := added.foldl (fun ps n => dictInsert ps n (Port.init (c._path ++ "/" ++ n))) c1._ports }
  let removed := Card.removed_ports c items
  let c3 : Card := if removed.isEmpty then c2 else { c2 with _changed := true }
  { c3 with _ports := dictRemoveAll c3._ports removed }

/-- The final loop of Card.update (lines 108 to 110): update every port in
place, OR the changed flags into the card's; a raised read error aborts
the loop, the error payload carrying the partially mutated dict and the
flags accumulated so far. -/
def updatePortsGo (read : String → Option String) :
    List (String × Port) → Except (List (String × Port) × Bool) (List (String × Port) × Bool)
  | [] => .ok ([], false)
  | (n, p) :: rest =>
    match Port.update p (read (p._path ++ "/status")) with
    | .error p1 => .error ((n, p1) :: rest, false)
    | .ok p1 =>
      match updatePortsGo read rest with
      | .error (rest1, ch) => .error ((n, p1) :: rest1, p1._changed || ch)
      | .ok (rest1, ch) => .ok ((n, p1) :: rest1, p1._changed || ch)

/-- Card.update: reconcile membership, then update every remaining port.
items is the directory listing of the card's path; read maps a status
attribute path to its read outcome. -/
def Card.update (c : Card) (items : List String) (read : String → Option String) : Except Card Card :=
  let c4 := c.reconcile items
  match updatePortsGo read c4._ports with
  | .ok (ps, ch) => .ok { c4 with _ports := ps, _changed := c4._changed || ch }
  | .error (ps, ch) => .error { c4 with _ports := ps, _changed := c4._changed || ch }

/-- enum_cards: one-time discovery, filtering the listing of DRM_PATH by
DRM_CARD_PATTERN and building a Card per match. -/
def enum_cards (items : List String) : List Card :=
  ((items.filter matchesCardPattern).map (fun item => DRM_PATH ++ "/" ++ item)).map Card.init

/-- Watcher.__init__. -/
structure Watcher where
  _cards : List Card
  _changed : Bool
  deriving DecidableEq

def Watcher.init (items : List String) : Watcher :=
  { _cards := enum_cards items, _changed := false }

/-- The card loop of Watcher.poll: update each card in order, OR the
changed flags; an exception aborts the loop, the error payload carrying
the partially mutated card list and the flags accumulated so far. -/
def pollGo (listing : String → List String) (read : String → Option String) :
    List Card → Except (List Card × Bool) (List Card × Bool)
  | [] => .ok ([], false)
  | c :: rest =>
    match Card.update c (listing c._path) read with
    | .error c1 => .error (c1 :: rest, false)
    | .ok c1 =>
      match pollGo listing read rest with
      | .error (rest1, ch) => .error (c1 :: rest1, c1._changed || ch)
      | .ok (rest1, ch) => .ok (c1 :: rest1, c1._changed || ch)

/-- Watcher.poll: reset the flag and update all cards; listing maps a
directory path to its entries, read maps a status path to its outcome. -/
def Watcher.poll (w : Watcher) (listing : String → List String) (read : String → Option String) :
    Except Watcher Watcher :=
  match pollGo listing read w._cards with
  | .ok (cs, ch) => .ok { w with _cards := cs, _changed := ch }
  | .error (cs, ch) => .error { w with _cards := cs, _changed := ch }

/-- The loop state of Watcher.run: the watcher and the next deadline on
the monotonic clock. -/
structure RunState where
  w : Watcher
  deadline : ℚ
  deriving DecidableEq

/-- One iteration of the while-True loop of Watcher.run; now is the value
time.monotonic() returns at the top of the iteration, and the natural
number counts how many times the external command was spawned.  The
trailing sleep affects timing only, never state. -/
def Watcher.loopIter (polling_rate : ℚ) (listing : String → List String)
    (read : String → Option String) (now : ℚ) (s : RunState) :
    Except Watcher (RunState × Nat) :=
  if s.deadline ≤ now then
    match Watcher.poll s.w listing read with
    | .error w1 => .error w1
    | .ok w1 =>
      .ok ({ w := w1, deadline := s.deadline + polling_rate }, if w1._changed then 1 else 0)
  else
    .ok (s, 0)

/-- The part of Watcher.run before the loop: a single baseline poll, which
never spawns the command, then deadline = time.monotonic(). -/
def Watcher.runStart (w : Watcher) (listing : String → List String)
    (read : String → Option String) (now : ℚ) : Except Watcher (RunState × Nat) :=
  match Watcher.poll w listing read with
  | .error w1 => .error w1
  | .ok w1 => .ok ({ w := w1, deadline := now }, 0)

/-- Iterating the loop of Watcher.run over a list of monotonic-clock
readings, summing the command invocations. -/
def Watcher.loopRun (polling_rate : ℚ) (listing : String → List String)
    (read : String → Option String) (nows : List ℚ) (s : RunState) :
    Except Watcher (RunState × Nat) :=
  match nows with
  | [] => .ok (s, 0)
  | t :: ts =>
    match Watcher.loopIter polling_rate listing read t s with
    | .error w1 => .error w1
    | .ok (s1, a) =>
      match Watcher.loopRun polling_rate listing read ts s1 with
      | .error w1 => .error w1
      | .ok (s2, b) => .ok (s2, a + b)

/-- A sequence of successful status reads folded through Port.update; the
error branch is unreachable because a successful read is some string. -/
def Port.applyReads (p : Port) (rs : List String) : Port :=
  match rs with
  | [] => p
  | s :: rest =>
    Port.applyReads (match Port.update p (some s) with | .ok q => q | .error q => q) rest

/-- The single-port body of the update loop with the exception wrapper
stripped, used to characterise the loop's successful runs. -/
def portUpd (read : String → Option String) (np : String × Port) : String × Port :=
  match Port.update np.2 (read (np.2._path ++ "/status")) with
  | .ok q => (np.1, q)
  | .error q => (np.1, q)

/-- The single-card body of the poll loop with the exception wrapper
stripped, used to characterise the loop's successful runs. -/
def cardUpd (listing : String → List String) (read : String → Option String) (c : Card) : Card :=
  match Card.update c (listing c._path) read with
  | .ok c1 => c1
  | .error c1 => c1

/-- A concrete card with one known port whose last read was
disconnected. -/
def exCard : Card :=
  ⟨"/sys/class/drm/card0",
    [("card0-DP-1", ⟨"/sys/class/drm/card0/card0-DP-1", some "disconnected", none, false⟩)],
    false⟩

/-- The result of updating exCard when the listing still shows its port
and the read now returns connected. -/
def exCard1 : Card :=
  ⟨"/sys/class/drm/card0",
    [("card0-DP-1",
      ⟨"/sys/class/drm/card0/card0-DP-1", some "connected", some "disconnected", true⟩)],
    true⟩

/-- A constant directory listing for the example card. -/
def exListing : String → List String := fun _ => ["card0-DP-1"]

/-- A constant successful status read for the example card. -/
def exRead : String → Option String := fun _ => some "connected"

/-- A concrete watcher owning the example card. -/
def exWatcher : Watcher := ⟨[exCard], false⟩

/-- The result of polling exWatcher under exListing and exRead. -/
def exWatcher1 : Watcher := ⟨[exCard1], true⟩

theorem Port.update_some (p : Port) (s : String) :
    Port.update p (some s) = .ok ⟨p._path, some s, p._status, some s != p._status⟩ := rfl

theorem Port.update_none (p : Port) :
    Port.update p none = .error ⟨p._path, p._status, p._previous_status, false⟩ := rfl

theorem Port.update_changed_irrel (p : Port) (b : Bool) (r : Option String) :
    Port.update { p with _changed := b } r = Port.update p r := by
  cases r <;> rfl

theorem Port.applyReads_append (p : Port) (rs : List String) (s : String) :
    p.applyReads (rs ++ [s]) =
      ⟨(p.applyReads rs)._path, some s, (p.applyReads rs)._status,
        some s != (p.applyReads rs)._status⟩ := by
  induction rs generalizing p with
  | nil => rfl
  | cons a rest ih =>
    simp only [List.cons_append, Port.applyReads]
    exact ih _

/-- C3: for every sequence of successful status readings delivered to one
port, after the update at tick n the changed flag is true iff the value
read at tick n differs from the value read at tick n-1, the first-ever
read being compared against the initial never-read value (none); moreover
the stored status after tick n is exactly the value read at tick n. -/
theorem claim_C3 (path : String) (rs : List String) (s : String) :
    (((Port.init path).applyReads (rs ++ [s]))._changed = true ↔
      some s ≠ ((Port.init path).applyReads rs)._status) ∧
    ((Port.init path).applyReads (rs ++ [s]))._status = some s := by
  rw [Port.applyReads_append]
  exact ⟨by simp [bne_iff_ne], rfl⟩

/-- C5: the first successful update of a newly created port always reports
a change, whatever value was read, because any stored value differs from
the initial never-read status. -/
theorem claim_C5 (path : String) (s : String) :
    (Port.update (Port.init path) (some s)).map Port.changed = .ok true := rfl

/-- C1: the polling loop does advance the deadline additively, but it adds
args.polling_rate itself, not its reciprocal: with the default rate of
0.2 Hz a fired tick moves the deadline by 1/5 second instead of the five
seconds the claim (and the CLI help text, which calls the option a rate
in Hz) requires, so the deadline after one fired tick differs from
baseline plus 1/rate. -/
theorem claim_C1 :
    Watcher.loopRun (1/5) (fun _ => []) (fun _ => none) [0] ⟨⟨[], false⟩, 0⟩
      = .ok (⟨⟨[], false⟩, 0 + 1/5⟩, 0) ∧
    (0 + (1/5 : ℚ)) ≠ 0 + 1/(1/5 : ℚ) := by
  refine ⟨rfl, by norm_num⟩

/-- C2 counterexample: a failing status read is not recovered locally; the
raised error propagates out of Port.update and all the way out of
Watcher.poll, so the tick aborts instead of continuing. -/
theorem claim_C2_cex :
    Port.update (Port.init "/sys/class/drm/card0/card0-DP-1") none
      = .error ⟨"/sys/class/drm/card0/card0-DP-1", none, none, false⟩ ∧
    (Watcher.poll
        ⟨[⟨"/sys/class/drm/card0",
            [("card0-DP-1", Port.init "/sys/class/drm/card0/card0-DP-1")], false⟩], false⟩
        (fun _ => ["card0-DP-1"]) (fun _ => none)).toOption = none := by
  exact ⟨rfl, rfl⟩

theorem lookup_cons_self {n k : String} (v : Port) (rest : List (String × Port)) (h : n = k) :
    List.lookup n ((k, v) :: rest) = some v := by
  have hb : (n == k) = true := by simp [h]
  simp [List.lookup, hb]

theorem lookup_cons_ne {n k : String} (v : Port) (rest : List (String × Port)) (h : ¬n = k) :
    List.lookup n ((k, v) :: rest) = List.lookup n rest := by
  have hb : (n == k) = false := by simp [h]
  simp [List.lookup, hb]

theorem lookup_append (n : String) (ps qs : List (String × Port)) :
    List.lookup n (ps ++ qs) = (List.lookup n ps).or (List.lookup n qs) := by
  induction ps with
  | nil => simp [List.lookup]
  | cons kv rest ih =>
    obtain ⟨k, v⟩ := kv
    by_cases h : n = k
    · simp [List.cons_append, lookup_cons_self v _ h]
    · simp [List.cons_append, lookup_cons_ne _ _ h, ih]

theorem lookup_isSome_iff (n : String) (ps : List (String × Port)) :
    (List.lookup n ps).isSome = true ↔ n ∈ ps.map Prod.fst := by
  induction ps with
  | nil => simp [List.lookup]
  | cons kv rest ih =>
    obtain ⟨k, v⟩ := kv
    by_cases h : n = k
    · simp [lookup_cons_self v _ h, h]
    · simp [lookup_cons_ne v _ h, h, ih]

theorem lookup_mem {n : String} {ps : List (String × Port)} {p : Port}
    (h : List.lookup n ps = some p) : (n, p) ∈ ps := by
  induction ps with
  | nil => simp [List.lookup] at h
  | cons kv rest ih =>
    obtain ⟨k, v⟩ := kv
    by_cases hk : n = k
    · rw [lookup_cons_self v _ hk] at h
      obtain rfl := Option.some.inj h
      simp [hk]
    · rw [lookup_cons_ne v _ hk] at h
      exact List.mem_cons_of_mem _ (ih h)

theorem mem_lookup_of_nodup {ps : List (String × Port)} (hnd : (ps.map Prod.fst).Nodup)
    {n : String} {p : Port} (h : (n, p) ∈ ps) : List.lookup n ps = some p := by
  induction ps with
  | nil => simp at h
  | cons kv rest ih =>
    obtain ⟨k, v⟩ := kv
    simp only [List.map_cons, List.nodup_cons] at hnd
    rcases List.mem_cons.mp h with h1 | h1
    · obtain ⟨rfl, rfl⟩ : n = k ∧ p = v := by simpa using h1
      exact lookup_cons_self _ rest rfl
    · have hk : n ≠ k := by
        rintro rfl
        exact hnd.1 (List.mem_map_of_mem Prod.fst h1)
      rw [lookup_cons_ne v _ hk]
      exact ih hnd.2 h1

theorem lookup_filter_ne (n m : String) (ps : List (String × Port)) :
    List.lookup n (ps.filter (fun kv => kv.1 != m)) =
      if n = m then none else List.lookup n ps := by
  induction ps with
  | nil => simp [List.lookup]
  | cons kv rest ih =>
    obtain ⟨k, v⟩ := kv
    rw [List.filter_cons]
    by_cases hkm : k = m
    · have hb : ((k, v).1 != m) = true ↔ False := by simp [hkm]
      rw [if_neg (by simp [hb])]
      rw [ih]
      by_cases hnm : n = m
      · simp [hnm]
      · have hnk : ¬n = k := fun h => hnm (h.trans hkm)
        rw [if_neg hnm, if_neg hnm, lookup_cons_ne v rest hnk]
    · have hb : ((k, v).1 != m) = true := by simp [hkm]
      rw [if_pos hb]
      by_cases hnk : n = k
      · have hnm : ¬n = m := fun h => hkm (hnk.symm.trans h)
        rw [lookup_cons_self _ _ hnk, if_neg hnm, lookup_cons_self _ _ hnk]
      · rw [lookup_cons_ne _ _ hnk, lookup_cons_ne _ _ hnk, ih]

theorem lookup_map_entries (f : String → Port) (ns : List String) (n : String) :
    List.lookup n (ns.map (fun m => (m, f m))) =
      if n ∈ ns then some (f n) else none := by
  induction ns with
  | nil => simp [List.lookup]
  | cons m rest ih =>
    by_cases h : n = m
    · subst h
      simp [lookup_cons_self (f n) _ rfl]
    · simp [List.map_cons, lookup_cons_ne _ _ h, ih, h]

theorem dictInsert_fresh {ps : List (String × Port)} {n : String}
    (h : ¬n ∈ ps.map Prod.fst) (p : Port) :
    dictInsert ps n p = ps ++ [(n, p)] := by
  have hany : ps.any (fun kv => kv.1 == n) = false := by
    rw [List.any_eq_false]
    rintro ⟨k, v⟩ hmem
    simp only [beq_iff_eq]
    rintro rfl
    exact h (List.mem_map_of_mem Prod.fst hmem)
  unfold dictInsert
  rw [hany]
  simp

theorem foldl_dictInsert_fresh (f : String → Port) (ns : List String) :
    ∀ ps : List (String × Port), ns.Nodup →
      (∀ m ∈ ns, ¬m ∈ ps.map Prod.fst) →
      ns.foldl (fun acc n => dictInsert acc n (f n)) ps
        = ps ++ ns.map (fun n => (n, f n)) := by
  induction ns with
  | nil => intro ps _ _; simp
  | cons n rest ih =>
    intro ps hnd hfresh
    simp only [List.foldl_cons]
    rw [dictInsert_fresh (hfresh n (List.mem_cons_self n rest)) (f n)]
    rw [ih (ps ++ [(n, f n)]) (List.nodup_cons.mp hnd).2 ?_]
    · simp
    · intro m hm
      simp only [List.map_append, List.mem_append]
      rintro (hmem | hmem)
      · exact hfresh m (List.mem_cons_of_mem n hm) hmem
      · simp only [List.map_cons, List.map_nil, List.mem_singleton] at hmem
        subst hmem
        exact (List.nodup_cons.mp hnd).1 hm

theorem lookup_dictRemoveAll (n : String) (rs : List String) :
    ∀ ps : List (String × Port),
      List.lookup n (dictRemoveAll ps rs) =
        if n ∈ rs then none else List.lookup n ps := by
  induction rs with
  | nil => intro ps; simp [dictRemoveAll]
  | cons m rest ih =>
    intro ps
    show List.lookup n (dictRemoveAll (ps.filter fun kv => kv.1 != m) rest) = _
    rw [ih]
    by_cases hc : n ∈ rest
    · simp [hc]
    · rw [if_neg hc, lookup_filter_ne]
      by_cases hnm : n = m
      · simp [hnm]
      · simp [hnm, hc]

theorem lookup_eq_none {n : String} {ps : List (String × Port)}
    (h : ¬n ∈ ps.map Prod.fst) : List.lookup n ps = none := by
  cases hl : List.lookup n ps with
  | none => rfl
  | some p => exact absurd ((lookup_isSome_iff n ps).mp (by simp [hl])) h

theorem Card.reconcile_path (c : Card) (items : List String) :
    (c.reconcile items)._path = c._path := by
  simp only [Card.reconcile]
  split <;> split <;> rfl

theorem Card.reconcile_ports (c : Card) (items : List String) :
    (c.reconcile items)._ports =
      dictRemoveAll
        ((c.added_ports items).foldl
          (fun ps n => dictInsert ps n (Port.init (c._path ++ "/" ++ n))) c._ports)
        (c.removed_ports items) := by
  simp only [Card.reconcile]
  split <;> split <;> rfl

theorem Card.reconcile_changed (c : Card) (items : List String) :
    (c.reconcile items)._changed =
      (!(c.added_ports items).isEmpty || !(c.removed_ports items).isEmpty) := by
  simp only [Card.reconcile]
  split <;> split <;> simp_all

theorem Card.added_ports_nodup (c : Card) (items : List String) :
    (c.added_ports items).Nodup :=
  (List.nodup_dedup _).filter _

theorem Card.added_ports_fresh (c : Card) (items : List String) :
    ∀ m ∈ c.added_ports items, ¬m ∈ c._ports.map Prod.fst := by
  intro m hm
  have hf := List.of_mem_filter hm
  simpa [Card.current_port_names] using hf

theorem Card.mem_added_ports {c : Card} {items : List String} {n : String} :
    n ∈ c.added_ports items ↔
      n ∈ Card.new_port_names items ∧ ¬n ∈ c.current_port_names := by
  simp [Card.added_ports, List.mem_filter]

theorem Card.mem_removed_ports {c : Card} {items : List String} {n : String} :
    n ∈ c.removed_ports items ↔
      n ∈ c.current_port_names ∧ ¬n ∈ Card.new_port_names items := by
  simp [Card.removed_ports, List.mem_filter]

theorem Card.reconcile_lookup (c : Card) (items : List String) (n : String) :
    List.lookup n (c.reconcile items)._ports =
      if n ∈ Card.new_port_names items then
        (if n ∈ c.current_port_names then List.lookup n c._ports
         else some (Port.init (c._path ++ "/" ++ n)))
      else none := by
  rw [Card.reconcile_ports, lookup_dictRemoveAll,
    foldl_dictInsert_fresh _ _ _ (c.added_ports_nodup items) (c.added_ports_fresh items),
    lookup_append, lookup_map_entries]
  by_cases hE : n ∈ Card.new_port_names items
  · have hrm : ¬n ∈ c.removed_ports items := by
      rw [Card.mem_removed_ports]
      exact fun hcon => hcon.2 hE
    rw [if_neg hrm, if_pos hE]
    by_cases hK : n ∈ c.current_port_names
    · have had : ¬n ∈ c.added_ports items := by
        rw [Card.mem_added_ports]
        exact fun hcon => hcon.2 hK
      obtain ⟨p, hp⟩ := Option.isSome_iff_exists.mp ((lookup_isSome_iff n c._ports).mpr hK)
      rw [if_pos hK, hp, if_neg had]
      rfl
    · have had : n ∈ c.added_ports items := Card.mem_added_ports.mpr ⟨hE, hK⟩
      rw [if_neg hK, lookup_eq_none hK, if_pos had]
      rfl
  · by_cases hK : n ∈ c.current_port_names
    · have hrm : n ∈ c.removed_ports items := Card.mem_removed_ports.mpr ⟨hK, hE⟩
      rw [if_pos hrm, if_neg hE]
    · have hrm : ¬n ∈ c.removed_ports items := by
        rw [Card.mem_removed_ports]
        exact fun hcon => hK hcon.1
      have had : ¬n ∈ c.added_ports items := by
        rw [Card.mem_added_ports]
        exact fun hcon => hE hcon.1
      rw [if_neg hrm, if_neg hE, lookup_eq_none hK, if_neg had]
      rfl

theorem Card.reconcile_keys (c : Card) (items : List String) (n : String) :
    n ∈ (c.reconcile items)._ports.map Prod.fst ↔ n ∈ Card.new_port_names items := by
  rw [← lookup_isSome_iff, Card.reconcile_lookup]
  by_cases hE : n ∈ Card.new_port_names items
  · simp only [hE, if_true, iff_true]
    by_cases hK : n ∈ c.current_port_names
    · rw [if_pos hK, lookup_isSome_iff]
      exact hK
    · simp [hK]
  · simp [hE]

theorem portUpd_of_ok {read : String → Option String} {np : String × Port} {q : Port}
    (h : Port.update np.2 (read (np.2._path ++ "/status")) = .ok q) :
    portUpd read np = (np.1, q) := by
  unfold portUpd
  rw [h]

theorem portUpd_read_some {read : String → Option String} {np : String × Port} {s : String}
    (h : read (np.2._path ++ "/status") = some s) :
    portUpd read np = (np.1, ⟨np.2._path, some s, np.2._status, some s != np.2._status⟩) := by
  unfold portUpd
  rw [h, Port.update_some]

theorem updatePortsGo_ok {read : String → Option String} :
    ∀ {ps qs : List (String × Port)} {ch : Bool},
      updatePortsGo read ps = .ok (qs, ch) →
      qs = ps.map (portUpd read) ∧ ch = qs.any (fun kv => kv.2._changed) := by
  intro ps
  induction ps with
  | nil =>
    intro qs ch h
    simp only [updatePortsGo, Except.ok.injEq, Prod.mk.injEq] at h
    obtain ⟨hq, hc⟩ := h
    subst hq
    subst hc
    simp
  | cons np rest ih =>
    intro qs ch h
    obtain ⟨n, p⟩ := np
    simp only [updatePortsGo] at h
    split at h
    · exact absurd h (by simp)
    next p1 hup =>
      split at h
      · exact absurd h (by simp)
      next rest1 ch1 hgo =>
        simp only [Except.ok.injEq, Prod.mk.injEq] at h
        obtain ⟨hq, hc⟩ := h
        obtain ⟨hr, hcc⟩ := ih hgo
        subst hq
        subst hc
        constructor
        · rw [List.map_cons, portUpd_of_ok hup, hr]
        · rw [List.any_cons, hcc, hr]

theorem updatePortsGo_isOk_iff (read : String → Option String) :
    ∀ ps : List (String × Port),
      (∃ r, updatePortsGo read ps = .ok r) ↔
        ∀ np ∈ ps, (read (np.2._path ++ "/status")).isSome := by
  intro ps
  induction ps with
  | nil => simp [updatePortsGo]
  | cons np rest ih =>
    obtain ⟨n, p⟩ := np
    cases hread : read (p._path ++ "/status") with
    | none =>
      constructor
      · rintro ⟨r, hr⟩
        simp only [updatePortsGo, hread, Port.update_none] at hr
        exact absurd hr (by simp)
      · intro hall
        have := hall (n, p) (List.mem_cons_self _ _)
        rw [hread] at this
        simp at this
    | some s =>
      constructor
      · rintro ⟨r, hr⟩
        simp only [updatePortsGo, hread, Port.update_some] at hr
        intro np hmem
        rcases List.mem_cons.mp hmem with h1 | h1
        · subst h1
          simp [hread]
        · refine (ih.mp ?_) np h1
          split at hr
          · exact absurd hr (by simp)
          next rest1 ch1 hgo => exact ⟨_, hgo⟩
      · intro hall
        obtain ⟨⟨rest1, ch1⟩, hgo⟩ := ih.mpr (fun np hmem => hall np (List.mem_cons_of_mem _ hmem))
        refine ⟨((n, ⟨p._path, some s, p._status, some s != p._status⟩) :: rest1,
          (some s != p._status) || ch1), ?_⟩
        simp only [updatePortsGo, hread, Port.update_some, hgo]

/-- C10: the reconciliation step of a card update retains the entries of
ports present both before and in the current enumeration with their state
untouched, creates entries in the never-read initial state exactly for
the added names, and deletes exactly the removed names; the card's path
is untouched. -/
theorem claim_C10 (c : Card) (items : List String) (n : String) :
    (List.lookup n (c.reconcile items)._ports =
      (if n ∈ Card.new_port_names items then
        (if n ∈ c.current_port_names then List.lookup n c._ports
         else some ⟨c._path ++ "/" ++ n, none, none, false⟩)
       else none)) ∧
    (c.reconcile items)._path = c._path := by
  exact ⟨Card.reconcile_lookup c items n, Card.reconcile_path c items⟩

theorem portUpd_fst (read : String → Option String) (np : String × Port) :
    (portUpd read np).1 = np.1 := by
  unfold portUpd
  split <;> rfl

theorem map_portUpd_fst (read : String → Option String) (ps : List (String × Port)) :
    (ps.map (portUpd read)).map Prod.fst = ps.map Prod.fst := by
  rw [List.map_map]
  exact List.map_congr_left (fun np _ => portUpd_fst read np)

theorem Card.update_ok {c : Card} {items : List String} {read : String → Option String}
    {c1 : Card} (h : Card.update c items read = .ok c1) :
    c1._path = c._path ∧
    c1._ports = (c.reconcile items)._ports.map (portUpd read) ∧
    c1._changed = ((c.reconcile items)._changed || c1._ports.any (fun kv => kv.2._changed)) ∧
    ∀ np ∈ (c.reconcile items)._ports, (read (np.2._path ++ "/status")).isSome := by
  simp only [Card.update] at h
  split at h
  next ps ch hgo =>
    obtain ⟨hq, hc⟩ := updatePortsGo_ok hgo
    simp only [Except.ok.injEq] at h
    subst h
    refine ⟨Card.reconcile_path c items, hq, ?_, ?_⟩
    · rw [hc, hq]
    · exact (updatePortsGo_isOk_iff read _).mp ⟨_, hgo⟩
  next => exact absurd h (by simp)

theorem Card.update_isOk_iff (c : Card) (items : List String) (read : String → Option String) :
    (∃ c1, Card.update c items read = .ok c1) ↔
      ∀ np ∈ (c.reconcile items)._ports, (read (np.2._path ++ "/status")).isSome := by
  constructor
  · rintro ⟨c1, h⟩
    exact (Card.update_ok h).2.2.2
  · intro hall
    obtain ⟨⟨ps, ch⟩, hgo⟩ := (updatePortsGo_isOk_iff read _).mpr hall
    refine ⟨{ (c.reconcile items) with _ports := ps, _changed := (c.reconcile items)._changed || ch }, ?_⟩
    simp only [Card.update, hgo]

theorem Card.update_error_of_read_none {c : Card} {items : List String}
    {read : String → Option String}
    (h : ∃ np ∈ (c.reconcile items)._ports, read (np.2._path ++ "/status") = none) :
    ∃ c1, Card.update c items read = .error c1 := by
  cases hu : Card.update c items read with
  | error c1 => exact ⟨c1, rfl⟩
  | ok c1 =>
    obtain ⟨np, hmem, hnone⟩ := h
    have hs := (Card.update_ok hu).2.2.2 np hmem
    rw [hnone] at hs
    simp at hs

theorem Card.reconcile_no_diff {c : Card} {items : List String}
    (ha : c.added_ports items = []) (hr : c.removed_ports items = []) :
    c.reconcile items = { c with _changed := false } := by
  simp only [Card.reconcile, ha, hr]
  simp [dictRemoveAll]

theorem Card.update_ok_port_reads {c : Card} {items : List String}
    {read : String → Option String} {c1 : Card}
    (h : Card.update c items read = .ok c1) :
    ∀ np ∈ c1._ports, ∃ s, read (np.2._path ++ "/status") = some s ∧ np.2._status = some s := by
  obtain ⟨_, hports, _, hreads⟩ := Card.update_ok h
  intro np hmem
  rw [hports] at hmem
  obtain ⟨mp, hmp, rfl⟩ := List.mem_map.mp hmem
  obtain ⟨s, hs⟩ := Option.isSome_iff_exists.mp (hreads mp hmp)
  rw [portUpd_read_some hs]
  exact ⟨s, hs, rfl⟩

theorem Card.update_stable {c : Card} {items : List String} {read : String → Option String}
    {c1 : Card} (h : Card.update c items read = .ok c1) :
    ∃ c2, Card.update c1 items read = .ok c2 ∧ c2._changed = false := by
  obtain ⟨hpath, hports, hch, hreads⟩ := Card.update_ok h
  have hkeys : c1._ports.map Prod.fst = (c.reconcile items)._ports.map Prod.fst := by
    rw [hports, map_portUpd_fst]
  have hcur : ∀ n : String, n ∈ c1.current_port_names ↔ n ∈ Card.new_port_names items := by
    intro n
    rw [Card.current_port_names, hkeys]
    exact Card.reconcile_keys c items n
  have ha : c1.added_ports items = [] := by
    rw [Card.added_ports, List.filter_eq_nil_iff]
    intro n hn
    simp [(hcur n).mpr hn]
  have hr : c1.removed_ports items = [] := by
    rw [Card.removed_ports, List.filter_eq_nil_iff]
    intro n hn
    simp [(hcur n).mp hn]
  have hrec : c1.reconcile items = { c1 with _changed := false } :=
    Card.reconcile_no_diff ha hr
  have hstat := Card.update_ok_port_reads h
  have hok : ∃ c2, Card.update c1 items read = .ok c2 := by
    rw [Card.update_isOk_iff, hrec]
    intro np hmem
    obtain ⟨s, hs, _⟩ := hstat np hmem
    simp [hs]
  obtain ⟨c2, h2⟩ := hok
  refine ⟨c2, h2, ?_⟩
  obtain ⟨_, hports2, hch2, _⟩ := Card.update_ok h2
  have hflags : c2._ports.any (fun kv => kv.2._changed) = false := by
    rw [List.any_eq_false]
    intro kv hkv
    rw [hports2, hrec] at hkv
    obtain ⟨mp, hmp, rfl⟩ := List.mem_map.mp hkv
    obtain ⟨s, hs, hstatus⟩ := hstat mp hmp
    rw [portUpd_read_some hs]
    simp [hstatus]
  rw [hch2, hflags, hrec]
  rfl

theorem cardUpd_of_ok {listing : String → List String} {read : String → Option String}
    {c c1 : Card} (h : Card.update c (listing c._path) read = .ok c1) :
    cardUpd listing read c = c1 := by
  unfold cardUpd
  rw [h]

theorem pollGo_ok {listing : String → List String} {read : String → Option String} :
    ∀ {cs cs1 : List Card} {ch : Bool},
      pollGo listing read cs = .ok (cs1, ch) →
      cs1 = cs.map (cardUpd listing read) ∧ ch = cs1.any (fun c => c._changed) ∧
        ∀ c ∈ cs, ∃ c1, Card.update c (listing c._path) read = .ok c1 := by
  intro cs
  induction cs with
  | nil =>
    intro cs1 ch h
    simp only [pollGo, Except.ok.injEq, Prod.mk.injEq] at h
    obtain ⟨hq, hc⟩ := h
    subst hq
    subst hc
    simp
  | cons c rest ih =>
    intro cs1 ch h
    simp only [pollGo] at h
    split at h
    · exact absurd h (by simp)
    next c1 hup =>
      split at h
      · exact absurd h (by simp)
      next rest1 ch1 hgo =>
        simp only [Except.ok.injEq, Prod.mk.injEq] at h
        obtain ⟨hq, hc⟩ := h
        obtain ⟨hr, hcc, hall⟩ := ih hgo
        subst hq
        subst hc
        refine ⟨?_, ?_, ?_⟩
        · rw [List.map_cons, cardUpd_of_ok hup, hr]
        · rw [List.any_cons, hcc, hr]
        · intro cc hcc1
          rcases List.mem_cons.mp hcc1 with h1 | h1
          · subst h1
            exact ⟨c1, hup⟩
          · exact hall cc h1

theorem pollGo_isOk_iff (listing : String → List String) (read : String → Option String) :
    ∀ cs : List Card,
      (∃ r, pollGo listing read cs = .ok r) ↔
        ∀ c ∈ cs, ∃ c1, Card.update c (listing c._path) read = .ok c1 := by
  intro cs
  induction cs with
  | nil => simp [pollGo]
  | cons c rest ih =>
    constructor
    · rintro ⟨⟨cs1, ch⟩, hr⟩
      exact (pollGo_ok hr).2.2
    · intro hall
      obtain ⟨c1, hup⟩ := hall c (List.mem_cons_self _ _)
      obtain ⟨⟨rest1, ch1⟩, hgo⟩ := ih.mpr (fun cc hm => hall cc (List.mem_cons_of_mem _ hm))
      exact ⟨(c1 :: rest1, c1._changed || ch1), by simp only [pollGo, hup, hgo]⟩

theorem Watcher.poll_ok {w : Watcher} {listing : String → List String}
    {read : String → Option String} {w1 : Watcher}
    (h : Watcher.poll w listing read = .ok w1) :
    w1._cards = w._cards.map (cardUpd listing read) ∧
    w1._changed = w1._cards.any (fun c => c._changed) ∧
    ∀ c ∈ w._cards, ∃ c1, Card.update c (listing c._path) read = .ok c1 := by
  simp only [Watcher.poll] at h
  split at h
  next cs ch hgo =>
    simp only [Except.ok.injEq] at h
    subst h
    obtain ⟨hq, hc, hall⟩ := pollGo_ok hgo
    exact ⟨hq, by rw [hc], hall⟩
  next => exact absurd h (by simp)

theorem Watcher.poll_isOk_iff (w : Watcher) (listing : String → List String)
    (read : String → Option String) :
    (∃ w1, Watcher.poll w listing read = .ok w1) ↔
      ∀ c ∈ w._cards, ∃ c1, Card.update c (listing c._path) read = .ok c1 := by
  constructor
  · rintro ⟨w1, h⟩
    exact (Watcher.poll_ok h).2.2
  · intro hall
    obtain ⟨⟨cs, ch⟩, hgo⟩ := (pollGo_isOk_iff listing read w._cards).mpr hall
    exact ⟨{ w with _cards := cs, _changed := ch }, by simp only [Watcher.poll, hgo]⟩

/-- C7: if the directory listings and attribute values do not change
between two consecutive ticks, the poll after an already successful poll
succeeds and reports no change: the watcher's changed flag is false on
every tick after the first baseline tick in a constant environment. -/
theorem claim_C7 (w : Watcher) (listing : String → List String)
    (read : String → Option String) (w1 : Watcher)
    (h : Watcher.poll w listing read = .ok w1) :
    ∃ w2, Watcher.poll w1 listing read = .ok w2 ∧ w2._changed = false := by
  obtain ⟨hcards, hch, hok⟩ := Watcher.poll_ok h
  have hstep : ∀ c1 ∈ w1._cards,
      ∃ c2, Card.update c1 (listing c1._path) read = .ok c2 ∧ c2._changed = false := by
    intro c1 hmem
    rw [hcards] at hmem
    obtain ⟨c, hc, rfl⟩ := List.mem_map.mp hmem
    obtain ⟨c1', hup⟩ := hok c hc
    rw [cardUpd_of_ok hup]
    have hpath : c1'._path = c._path := (Card.update_ok hup).1
    rw [hpath]
    exact Card.update_stable hup
  obtain ⟨w2, h2⟩ := (Watcher.poll_isOk_iff w1 listing read).mpr
    (fun c1 hm => ⟨(hstep c1 hm).choose, (hstep c1 hm).choose_spec.1⟩)
  refine ⟨w2, h2, ?_⟩
  obtain ⟨hcards2, hch2, _⟩ := Watcher.poll_ok h2
  rw [hch2, List.any_eq_false]
  intro c2 hc2
  rw [hcards2] at hc2
  obtain ⟨c1, hc1, rfl⟩ := List.mem_map.mp hc2
  obtain ⟨c2', hup2, hflag⟩ := hstep c1 hc1
  rw [cardUpd_of_ok hup2, hflag]
  simp

theorem dictRemoveAll_sublist (rs : List String) :
    ∀ ps : List (String × Port), List.Sublist (dictRemoveAll ps rs) ps := by
  induction rs with
  | nil => intro ps; simp [dictRemoveAll]
  | cons m rest ih =>
    intro ps
    exact (ih _).trans (List.filter_sublist ps)

theorem Card.reconcile_keys_nodup {c : Card} (items : List String)
    (hnd : (c._ports.map Prod.fst).Nodup) :
    ((c.reconcile items)._ports.map Prod.fst).Nodup := by
  rw [Card.reconcile_ports,
    foldl_dictInsert_fresh _ _ _ (c.added_ports_nodup items) (c.added_ports_fresh items)]
  refine ((dictRemoveAll_sublist (c.removed_ports items) _).map Prod.fst).nodup ?_
  rw [List.map_append, List.map_map]
  refine List.Nodup.append hnd ?_ ?_
  · have hid : List.map (Prod.fst ∘ fun n => (n, Port.init (c._path ++ "/" ++ n)))
        (c.added_ports items) = c.added_ports items :=
      (List.map_congr_left (fun a _ => rfl)).trans (List.map_id _)
    rw [hid]
    exact c.added_ports_nodup items
  · intro a ha hb
    simp only [List.mem_map, Function.comp] at hb
    obtain ⟨m, hm, rfl⟩ := hb
    exact c.added_ports_fresh items m hm ha

theorem Card.added_ports_ne_nil {c : Card} {items : List String} :
    ¬c.added_ports items = [] ↔
      ∃ n ∈ Card.new_port_names items, ¬n ∈ c.current_port_names := by
  constructor
  · intro h
    obtain ⟨n, hn⟩ := List.exists_mem_of_ne_nil _ h
    exact ⟨n, (Card.mem_added_ports.mp hn).1, (Card.mem_added_ports.mp hn).2⟩
  · rintro ⟨n, h1, h2⟩ hnil
    have hmem := Card.mem_added_ports.mpr ⟨h1, h2⟩
    rw [hnil] at hmem
    simp at hmem

theorem Card.removed_ports_ne_nil {c : Card} {items : List String} :
    ¬c.removed_ports items = [] ↔
      ∃ n ∈ c.current_port_names, ¬n ∈ Card.new_port_names items := by
  constructor
  · intro h
    obtain ⟨n, hn⟩ := List.exists_mem_of_ne_nil _ h
    exact ⟨n, (Card.mem_removed_ports.mp hn).1, (Card.mem_removed_ports.mp hn).2⟩
  · rintro ⟨n, h1, h2⟩ hnil
    have hmem := Card.mem_removed_ports.mpr ⟨h1, h2⟩
    rw [hnil] at hmem
    simp at hmem

/-- C4: for a successful card update, the card's changed flag is true iff
the symmetric difference between the previously known port-name set and
the currently enumerated port-name set is non-empty, or some retained
port's changed flag is true after its update. -/
theorem claim_C4 (c : Card) (items : List String) (read : String → Option String) (c1 : Card)
    (hnd : (c._ports.map Prod.fst).Nodup) (h : Card.update c items read = .ok c1) :
    c1._changed = true ↔
      ((∃ n ∈ Card.new_port_names items, ¬n ∈ c.current_port_names) ∨
       (∃ n ∈ c.current_port_names, ¬n ∈ Card.new_port_names items) ∨
       (∃ n p, n ∈ c.current_port_names ∧ n ∈ Card.new_port_names items ∧
         List.lookup n c1._ports = some p ∧ p._changed = true)) := by
  obtain ⟨hpath, hports, hch, hreads⟩ := Card.update_ok h
  have hkeys : c1._ports.map Prod.fst = (c.reconcile items)._ports.map Prod.fst := by
    rw [hports, map_portUpd_fst]
  have hnd1 : (c1._ports.map Prod.fst).Nodup := by
    rw [hkeys]
    exact Card.reconcile_keys_nodup items hnd
  rw [hch, Card.reconcile_changed]
  constructor
  · intro hflag
    rcases Bool.or_eq_true_iff.mp hflag with h1 | h2
    · rcases Bool.or_eq_true_iff.mp h1 with ha | hr
      · exact Or.inl (Card.added_ports_ne_nil.mp (by simpa using ha))
      · exact Or.inr (Or.inl (Card.removed_ports_ne_nil.mp (by simpa using hr)))
    · obtain ⟨⟨n, p⟩, hmem, hpflag⟩ := List.any_eq_true.mp h2
      have hnew : n ∈ Card.new_port_names items := by
        rw [← Card.reconcile_keys c items n, ← hkeys]
        exact List.mem_map_of_mem Prod.fst hmem
      by_cases hcur : n ∈ c.current_port_names
      · exact Or.inr (Or.inr ⟨n, p, hcur, hnew,
          mem_lookup_of_nodup hnd1 hmem, by simpa using hpflag⟩)
      · exact Or.inl ⟨n, hnew, hcur⟩
  · intro hd
    rcases hd with ⟨n, h1, h2⟩ | ⟨n, h1, h2⟩ | ⟨n, p, h1, h2, h3, h4⟩
    · have : ¬c.added_ports items = [] := Card.added_ports_ne_nil.mpr ⟨n, h1, h2⟩
      have hne : (c.added_ports items).isEmpty = false := by
        rcases he : (c.added_ports items).isEmpty with _ | _
        · rfl
        · exact absurd (List.isEmpty_iff.mp he) this
      simp [hne]
    · have : ¬c.removed_ports items = [] := Card.removed_ports_ne_nil.mpr ⟨n, h1, h2⟩
      have hne : (c.removed_ports items).isEmpty = false := by
        rcases he : (c.removed_ports items).isEmpty with _ | _
        · rfl
        · exact absurd (List.isEmpty_iff.mp he) this
      simp [hne]
    · have hany : c1._ports.any (fun kv => kv.2._changed) = true :=
        List.any_eq_true.mpr ⟨(n, p), lookup_mem h3, by simpa using h4⟩
      simp [hany]

theorem Watcher.poll_error_of_card_error {w : Watcher} {listing : String → List String}
    {read : String → Option String} {c : Card}
    (hc : c ∈ w._cards) (he : ∃ c1, Card.update c (listing c._path) read = .error c1) :
    ∃ w1, Watcher.poll w listing read = .error w1 := by
  cases hp : Watcher.poll w listing read with
  | error w1 => exact ⟨w1, rfl⟩
  | ok w1 =>
    obtain ⟨c1, hup⟩ := (Watcher.poll_ok hp).2.2 c hc
    obtain ⟨ce, hce⟩ := he
    rw [hup] at hce
    exact absurd hce (by simp)

/-- C2 amended: on a read failure the port's status fields are left
unchanged and its changed flag is false (the flag was reset before the
read), but the failure is not recovered locally: the raised error
propagates out of Port.update, out of Card.update and out of
Watcher.poll, aborting the tick (and the process, since main catches only
KeyboardInterrupt). -/
theorem claim_C2_amended :
    (∀ p : Port, Port.update p none = .error { p with _changed := false }) ∧
    (∀ (c : Card) (items : List String) (read : String → Option String),
      (∃ np ∈ (c.reconcile items)._ports, read (np.2._path ++ "/status") = none) →
      ∃ c1, Card.update c items read = .error c1) ∧
    (∀ (w : Watcher) (listing : String → List String) (read : String → Option String) (c : Card),
      c ∈ w._cards → (∃ c1, Card.update c (listing c._path) read = .error c1) →
      ∃ w1, Watcher.poll w listing read = .error w1) := by
  refine ⟨fun p => rfl, ?_, ?_⟩
  · intro c items read h
    exact Card.update_error_of_read_none h
  · intro w listing read c hc he
    exact Watcher.poll_error_of_card_error hc he

/-- Witness for the amended C2 at concrete inputs: a watcher with one
card, a listing exposing one port and a read that always fails. -/
theorem claim_C2_amended_witness :
    (Port.update (Port.init "/p") none = .error { Port.init "/p" with _changed := false }) ∧
    (∃ c1, Card.update ⟨"/sys/class/drm/card0", [], false⟩ ["card0-DP-1"] (fun _ => none)
      = .error c1) ∧
    (∃ w1, Watcher.poll ⟨[⟨"/sys/class/drm/card0", [], false⟩], false⟩
      (fun _ => ["card0-DP-1"]) (fun _ => none) = .error w1) := by
  refine ⟨claim_C2_amended.1 _, ?_, ?_⟩
  · exact claim_C2_amended.2.1 _ _ _ (by decide)
  · exact claim_C2_amended.2.2 _ _ _ ⟨"/sys/class/drm/card0", [], false⟩ (by decide)
      (claim_C2_amended.2.1 _ _ _ (by decide))

theorem Card.update_changed_input_irrel (c : Card) (b : Bool) (items : List String)
    (read : String → Option String) :
    Card.update { c with _changed := b } items read = Card.update c items read := rfl

theorem Watcher.poll_changed_irrel (w : Watcher) (b : Bool) (listing : String → List String)
    (read : String → Option String) :
    Watcher.poll { w with _changed := b } listing read = Watcher.poll w listing read := rfl

theorem updatePortsGo_flag_irrel (read : String → Option String) (f : String × Port → Bool) :
    ∀ ps : List (String × Port),
      (updatePortsGo read (ps.map (fun kv => (kv.1, { kv.2 with _changed := f kv })))).toOption
        = (updatePortsGo read ps).toOption := by
  intro ps
  induction ps with
  | nil => rfl
  | cons np rest ih =>
    obtain ⟨n, p⟩ := np
    simp only [List.map_cons, updatePortsGo]
    rw [Port.update_changed_irrel p (f (n, p)) (read (p._path ++ "/status"))]
    cases hup : Port.update p (read (p._path ++ "/status")) with
    | error p1 => simp [hup, Except.toOption]
    | ok p1 =>
      cases hgo1 : updatePortsGo read (rest.map (fun kv => (kv.1, { kv.2 with _changed := f kv }))) with
      | error e1 =>
        cases hgo2 : updatePortsGo read rest with
        | error e2 =>
          obtain ⟨r1, ch1⟩ := e1
          obtain ⟨r2, ch2⟩ := e2
          simp [hup, hgo1, hgo2, Except.toOption]
        | ok r2 =>
          rw [hgo1, hgo2] at ih
          simp [Except.toOption] at ih
      | ok r1 =>
        cases hgo2 : updatePortsGo read rest with
        | error e2 =>
          rw [hgo1, hgo2] at ih
          simp [Except.toOption] at ih
        | ok r2 =>
          rw [hgo1, hgo2] at ih
          obtain rfl : r1 = r2 := by simpa [Except.toOption] using ih
          obtain ⟨rest1, ch1⟩ := r1
          simp [hup, hgo1, hgo2, Except.toOption]

theorem pollGo_cards_flag_irrel (listing : String → List String) (read : String → Option String)
    (g : Card → Bool) :
    ∀ cs : List Card,
      (pollGo listing read (cs.map (fun c => { c with _changed := g c }))).toOption
        = (pollGo listing read cs).toOption := by
  intro cs
  induction cs with
  | nil => rfl
  | cons c rest ih =>
    simp only [List.map_cons, pollGo]
    rw [Card.update_changed_input_irrel c (g c) (listing c._path) read]
    cases hup : Card.update c (listing c._path) read with
    | error c1 => simp [hup, Except.toOption]
    | ok c1 =>
      cases hgo1 : pollGo listing read (rest.map (fun c => { c with _changed := g c })) with
      | error e1 =>
        cases hgo2 : pollGo listing read rest with
        | error e2 =>
          obtain ⟨r1, ch1⟩ := e1
          obtain ⟨r2, ch2⟩ := e2
          simp [hup, hgo1, hgo2, Except.toOption]
        | ok r2 =>
          rw [hgo1, hgo2] at ih
          simp [Except.toOption] at ih
      | ok r1 =>
        cases hgo2 : pollGo listing read rest with
        | error e2 =>
          rw [hgo1, hgo2] at ih
          simp [Except.toOption] at ih
        | ok r2 =>
          rw [hgo1, hgo2] at ih
          obtain rfl : r1 = r2 := by simpa [Except.toOption] using ih
          obtain ⟨rest1, ch1⟩ := r1
          simp [hup, hgo1, hgo2, Except.toOption]

theorem Watcher.poll_cards_flag_irrel (w : Watcher) (g : Card → Bool)
    (listing : String → List String) (read : String → Option String) :
    (Watcher.poll { w with _cards := w._cards.map (fun c => { c with _changed := g c }) }
        listing read).toOption
      = (Watcher.poll w listing read).toOption := by
  simp only [Watcher.poll]
  have h := pollGo_cards_flag_irrel listing read g w._cards
  cases hgo1 : pollGo listing read (w._cards.map (fun c => { c with _changed := g c })) with
  | error e1 =>
    cases hgo2 : pollGo listing read w._cards with
    | error e2 =>
      obtain ⟨r1, ch1⟩ := e1
      obtain ⟨r2, ch2⟩ := e2
      simp [hgo1, hgo2, Except.toOption]
    | ok r2 =>
      rw [hgo1, hgo2] at h
      simp [Except.toOption] at h
  | ok r1 =>
    cases hgo2 : pollGo listing read w._cards with
    | error e2 =>
      rw [hgo1, hgo2] at h
      simp [Except.toOption] at h
    | ok r2 =>
      rw [hgo1, hgo2] at h
      obtain rfl : r1 = r2 := by simpa [Except.toOption] using h
      obtain ⟨cs, ch⟩ := r1
      simp [hgo1, hgo2, Except.toOption]

/-- C6: no update operation reads the incoming changed flags; every level
resets its flag at the start of the update, so a flag set on one tick
never persists into the result of the next tick's update.  The incoming
port flag, card flag and watcher flag are all irrelevant to the outcome
(for the loop bodies, to the outcome up to the exception payload). -/
theorem claim_C6 :
    (∀ (p : Port) (b : Bool) (r : Option String),
      Port.update { p with _changed := b } r = Port.update p r) ∧
    (∀ (c : Card) (b : Bool) (items : List String) (read : String → Option String),
      Card.update { c with _changed := b } items read = Card.update c items read) ∧
    (∀ (read : String → Option String) (f : String × Port → Bool) (ps : List (String × Port)),
      (updatePortsGo read (ps.map (fun kv => (kv.1, { kv.2 with _changed := f kv })))).toOption
        = (updatePortsGo read ps).toOption) ∧
    (∀ (w : Watcher) (b : Bool) (listing : String → List String) (read : String → Option String),
      Watcher.poll { w with _changed := b } listing read = Watcher.poll w listing read) ∧
    (∀ (w : Watcher) (g : Card → Bool) (listing : String → List String)
        (read : String → Option String),
      (Watcher.poll { w with _cards := w._cards.map (fun c => { c with _changed := g c }) }
          listing read).toOption
        = (Watcher.poll w listing read).toOption) :=
  ⟨Port.update_changed_irrel, Card.update_changed_input_irrel,
    updatePortsGo_flag_irrel, Watcher.poll_changed_irrel, Watcher.poll_cards_flag_irrel⟩

/-- C8: the scheduler performs exactly one full update before entering the
loop, and that baseline pass never spawns the external command even if it
reports changes (its action count is zero whatever the poll result); a
loop iteration leaves the state untouched when the deadline has not been
reached, and when it fires it spawns the command exactly when the poll
reported a change. -/
theorem claim_C8 :
    (∀ (w : Watcher) (listing : String → List String) (read : String → Option String) (now : ℚ),
      Watcher.runStart w listing read now
        = (Watcher.poll w listing read).map (fun w1 => ({ w := w1, deadline := now }, 0))) ∧
    (∀ (polling_rate : ℚ) (listing : String → List String) (read : String → Option String)
        (now : ℚ) (s : RunState),
      ¬s.deadline ≤ now → Watcher.loopIter polling_rate listing read now s = .ok (s, 0)) ∧
    (∀ (polling_rate : ℚ) (listing : String → List String) (read : String → Option String)
        (now : ℚ) (s : RunState) (w1 : Watcher),
      s.deadline ≤ now → Watcher.poll s.w listing read = .ok w1 →
      Watcher.loopIter polling_rate listing read now s
        = .ok ({ w := w1, deadline := s.deadline + polling_rate },
            if w1._changed then 1 else 0)) := by
  refine ⟨?_, ?_, ?_⟩
  · intro w listing read now
    unfold Watcher.runStart
    cases Watcher.poll w listing read <;> rfl
  · intro rate listing read now s h
    simp only [Watcher.loopIter, if_neg h]
  · intro rate listing read now s w1 hle hpoll
    simp only [Watcher.loopIter, if_pos hle, hpoll]

/-- Witness for C8 at concrete inputs: an empty watcher, a sleeping
iteration (deadline 1, now 0) and a fired iteration (deadline 0, now 0)
whose poll reports no change, so no command is spawned. -/
theorem claim_C8_witness :
    (Watcher.runStart ⟨[], false⟩ (fun _ => []) (fun _ => none) 0
      = (Watcher.poll ⟨[], false⟩ (fun _ => []) (fun _ => none)).map
          (fun w1 => ({ w := w1, deadline := 0 }, 0))) ∧
    (Watcher.loopIter 1 (fun _ => []) (fun _ => none) 0 ⟨⟨[], false⟩, 1⟩
      = .ok (⟨⟨[], false⟩, 1⟩, 0)) ∧
    (Watcher.loopIter 1 (fun _ => []) (fun _ => none) 0 ⟨⟨[], false⟩, 0⟩
      = .ok (⟨⟨[], false⟩, 0 + 1⟩, if (⟨[], false⟩ : Watcher)._changed then 1 else 0)) := by
  refine ⟨claim_C8.1 _ _ _ _, ?_, ?_⟩
  · exact claim_C8.2.1 1 _ _ 0 ⟨⟨[], false⟩, 1⟩ (by norm_num)
  · exact claim_C8.2.2 1 _ _ 0 ⟨⟨[], false⟩, 0⟩ ⟨[], false⟩ (by norm_num) rfl

/-- C9 counterexample: the publicly observable status of a port is not
confined to connected, disconnected and unknown: a never-read port
reports the string none (not unknown), and an arbitrary raw value such as
foo is stored and reported verbatim instead of being mapped to
unknown. -/
theorem claim_C9_cex :
    (Port.init "/sys/class/drm/card0/card0-DP-1").status = "none" ∧
    ¬(Port.init "/sys/class/drm/card0/card0-DP-1").status = "unknown" ∧
    (Port.update (Port.init "/sys/class/drm/card0/card0-DP-1") (some "foo")).map Port.status
      = .ok "foo" ∧
    ¬("foo" : String) = "connected" ∧ ¬("foo" : String) = "disconnected" ∧
    ¬("foo" : String) = "unknown" := by
  exact ⟨rfl, by decide, rfl, by decide, by decide, by decide⟩

/-- C9 amended: the observable status is the raw text of the most recent
successful read when that text is non-empty, the string none when the
port has never been successfully read or the last value read was empty,
and a failed read leaves the stored status (and hence the observable one)
unchanged; raw values are compared as opaque text, not mapped into a
closed domain. -/
theorem claim_C9_amended :
    (∀ path : String, (Port.init path).status = "none") ∧
    (∀ (p : Port) (s : String) (p1 : Port), Port.update p (some s) = .ok p1 →
      p1.status = if s = "" then "none" else s) ∧
    (∀ p p1 : Port, Port.update p none = .error p1 →
      p1.status = p.status ∧ p1._status = p._status ∧
        p1._previous_status = p._previous_status) := by
  refine ⟨fun path => rfl, ?_, ?_⟩
  · intro p s p1 h
    rw [Port.update_some] at h
    injection h with h1
    subst h1
    rfl
  · intro p p1 h
    rw [Port.update_none] at h
    injection h with h1
    subst h1
    exact ⟨rfl, rfl, rfl⟩

/-- Witness for the amended C9 at concrete inputs. -/
theorem claim_C9_amended_witness :
    ((Port.init "/a").status = "none") ∧
    ((⟨"/a", some "foo", none, true⟩ : Port).status
      = if ("foo" : String) = "" then "none" else "foo") ∧
    ((⟨"/a", some "x", some "y", false⟩ : Port).status
        = (⟨"/a", some "x", some "y", true⟩ : Port).status ∧
      (⟨"/a", some "x", some "y", false⟩ : Port)._status
        = (⟨"/a", some "x", some "y", true⟩ : Port)._status ∧
      (⟨"/a", some "x", some "y", false⟩ : Port)._previous_status
        = (⟨"/a", some "x", some "y", true⟩ : Port)._previous_status) := by
  refine ⟨claim_C9_amended.1 "/a", ?_, ?_⟩
  · exact claim_C9_amended.2.1 (Port.init "/a") "foo" _ rfl
  · exact claim_C9_amended.2.2 ⟨"/a", some "x", some "y", true⟩ _ rfl

/-- Witness for C4 at concrete inputs: one retained port flips status, so
the card's flag is explained by the retained-port disjunct. -/
theorem claim_C4_witness :
    exCard1._changed = true ↔
      ((∃ n ∈ Card.new_port_names ["card0-DP-1"], ¬n ∈ exCard.current_port_names) ∨
       (∃ n ∈ exCard.current_port_names, ¬n ∈ Card.new_port_names ["card0-DP-1"]) ∨
       (∃ n p, n ∈ exCard.current_port_names ∧ n ∈ Card.new_port_names ["card0-DP-1"] ∧
         List.lookup n exCard1._ports = some p ∧ p._changed = true)) :=
  claim_C4 exCard ["card0-DP-1"] (fun _ => some "connected") exCard1 (by decide) rfl

/-- Witness for C7 at concrete inputs: after a successful poll of
exWatcher in a constant environment, the next poll reports no change. -/
theorem claim_C7_witness :
    ∃ w2, Watcher.poll exWatcher1 exListing exRead = .ok w2 ∧ w2._changed = false :=
  claim_C7 exWatcher exListing exRead exWatcher1 rfl
